import Mathlib

/-!
Verification development for the lotteries backend.

The repository stores historical lottery draws in a single SQLite table
`Concursos` and answers analytical queries over the six primary numbers
`R1..R6` of each draw.  This file gives a shallow embedding of the core:

* `Row` — one row of the `Concursos` table (src/scripts/DBManager.mjs,
  `createTableIfNotExists`).
* the three-valued SQL semantics of the dynamically built membership
  query of `DBManager.findCombination` / the `/buscar-combinacion` route,
  including SQLite's treatment of unbound `?` placeholders as NULL;
* `getFrequentCombinations` — the k-subset frequency analyzer;
* the `/combinaciones` and `/buscar-combinacion` route layers
  (src/scripts/app.mjs);
* a transactional state machine for the ingestion pipeline
  (`insertNewRecordsOnly`, `reloadAllData`), with SQLite's rejection of
  nested `BEGIN TRANSACTION` and of `ROLLBACK` outside a transaction.
-/

namespace Lotto

/-- One row of the `Concursos` table.  `BOLSA` is declared `REAL` in the
schema but is only ever stored and compared, never used arithmetically,
so it is embedded as an integer; `FECHA` is text. -/
structure Row where
  CONCURSO : Int
  NPRODUCTO : Int
  R1 : Int
  R2 : Int
  R3 : Int
  R4 : Int
  R5 : Int
  R6 : Int
  R7 : Int
  BOLSA : Int
  FECHA : String
deriving DecidableEq, Repr

/-- The six primary numbers of a draw, in column order `R1..R6`
(`const numbers = [row.R1, row.R2, row.R3, row.R4, row.R5, row.R6]`). -/
def primaries (d : Row) : List Int :=
  [d.R1, d.R2, d.R3, d.R4, d.R5, d.R6]

/-! ### Three-valued SQL logic

SQLite evaluates comparisons with NULL to NULL, and a `WHERE` clause
keeps a row only when the predicate evaluates to true.  An unbound `?`
placeholder is bound to NULL.  `Option Bool` embeds the three truth
values, `none` being NULL. -/

/-- SQL `OR`: true absorbs, otherwise NULL is contagious. -/
def tvOr : Option Bool → Option Bool → Option Bool
  | some true, _ => some true
  | _, some true => some true
  | some false, some false => some false
  | _, _ => none

/-- SQL `AND`: false absorbs, otherwise NULL is contagious. -/
def tvAnd : Option Bool → Option Bool → Option Bool
  | some false, _ => some false
  | _, some false => some false
  | some true, some true => some true
  | _, _ => none

/-- SQL `col = ?` where the placeholder may be unbound (NULL). -/
def sqlCell (col : Int) (p : Option Int) : Option Bool :=
  p.map fun v => decide (col = v)

/-- The i-th AND-group of the generated membership query
`(R1 = ? OR R2 = ? OR R3 = ? OR R4 = ? OR R5 = ? OR R6 = ?)`.
Group `i` owns placeholder positions `6*i .. 6*i+5`; position `j` is
bound to `nums[j]` when `j < nums.length` and is otherwise NULL, because
the code passes only `numeros` itself as the parameter list
(`const params = [...numeros]`) for `6 * numeros.length` placeholders. -/
def groupEval (d : Row) (nums : List Int) (i : Nat) : Option Bool :=
  tvOr (tvOr (tvOr (tvOr (tvOr
    (sqlCell d.R1 nums[6 * i]?)
    (sqlCell d.R2 nums[6 * i + 1]?))
    (sqlCell d.R3 nums[6 * i + 2]?))
    (sqlCell d.R4 nums[6 * i + 3]?))
    (sqlCell d.R5 nums[6 * i + 4]?))
    (sqlCell d.R6 nums[6 * i + 5]?)

/-- The full generated `WHERE` predicate: one group per candidate
number, joined with `AND`. -/
def rowPred (d : Row) (nums : List Int) : Option Bool :=
  ((List.range nums.length).map (groupEval d nums)).foldl tvAnd (some true)

/-- `SELECT COUNT(*) FROM Concursos WHERE <predicate>`: the number of
rows on which the three-valued predicate is true. -/
def queryCount (rows : List Row) (nums : List Int) : Nat :=
  (rows.filter fun d => decide (rowPred d nums = some true)).length

/-- `DBManager.findCombination` (and the identical inline query of the
`/buscar-combinacion` route).  An empty candidate list produces the
query `SELECT COUNT(*) AS frecuencia FROM Concursos WHERE ` with an
empty predicate, a malformed statement that SQLite rejects; `none`
models that thrown error. -/
def findCombination (rows : List Row) (nums : List Int) : Option Nat :=
  if nums.isEmpty then none
  else some (queryCount rows nums)

/-- Membership-lookup semantics as the specification states it (§4.4):
for each candidate an OR across the six primary columns, an AND across
candidates.  Kept side by side with `findCombination` to compare the
code's query against the specified one. -/
def occurrenceCountSpec (rows : List Row) (nums : List Int) : Nat :=
  (rows.filter fun d => nums.all fun v => (primaries d).contains v).length

/-! ### Route layer (src/scripts/app.mjs) -/

/-- Outcome of an HTTP route: a JSON payload, a 400 argument-validation
rejection, or a 500 generic failure from the catch-all handler. -/
inductive RouteResult (α : Type) where
  | ok (a : α) : RouteResult α
  | badRequest : RouteResult α
  | serverError : RouteResult α
deriving DecidableEq, Repr

/-- The `/buscar-combinacion` route.  `numeros` comes from the JSON
body: `none` models a missing/null field, on which `numeros.map(...)`
throws a type error that the catch-all turns into a 500; an empty list
yields the malformed empty-predicate query, also a 500.  Otherwise the
route answers `{ existe, frecuencia }`. -/
def buscarCombinacion (rows : List Row) (numeros : Option (List Int)) :
    RouteResult (Bool × Nat) :=
  match numeros with
  | none => .serverError
  | some nums =>
    match findCombination rows nums with
    | none => .serverError
    | some c => .ok (decide (0 < c), c)

/-! ### Combination analyzer (`DBManager.getFrequentCombinations`) -/

/-- All size-`k` combinations of a list, enumerated as the
`combinatorial-generators` library does: positions strictly increasing,
lexicographic by position.  Elements are taken by position, so a draw
whose six columns repeat a value yields combinations with repeated
values. -/
def combos : Nat → List Int → List (List Int)
  | 0, _ => [[]]
  | _ + 1, [] => []
  | k + 1, x :: xs => (combos k xs).map (x :: ·) ++ combos (k + 1) xs

/-- The canonical aggregation key: the combination sorted ascending
(`combo.sort((a, b) => a - b)`). -/
def sortAsc (c : List Int) : List Int :=
  List.insertionSort (· ≤ ·) c

/-- Bump the counter of `key` in the frequency table
(`combinationFrequency[sortedCombo] = (combinationFrequency[sortedCombo] || 0) + 1`),
modelled as an association list in first-insertion order — the
iteration order `Object.entries` gives the comma-joined (non
array-index) keys produced for `k ≥ 2`; for `k = 1` the engine reorders
the numeric keys, which can only permute entries of equal frequency and
no stated property depends on that order. -/
def bump : List (List Int × Nat) → List Int → List (List Int × Nat)
  | [], key => [(key, 1)]
  | e :: m, key =>
    if e.1 = key then (e.1, e.2 + 1) :: m else e :: bump m key

/-- Lookup in the frequency table. -/
def alook : List (List Int × Nat) → List Int → Option Nat
  | [], _ => none
  | e :: m, key => if e.1 = key then some e.2 else alook m key

/-- Occurrences of a key in a list of keys. -/
def kcount (key : List Int) : List (List Int) → Nat
  | [] => 0
  | k0 :: ks => (if k0 = key then 1 else 0) + kcount key ks

/-- The canonical keys contributed by one draw. -/
def keysOf (k : Nat) (d : Row) : List (List Int) :=
  (combos k (primaries d)).map sortAsc

/-- All canonical keys contributed by the stored draws, in scan order. -/
def allKeys (k : Nat) : List Row → List (List Int)
  | [] => []
  | d :: ds => keysOf k d ++ allKeys k ds

/-- The frequency table built by the double loop over draws and their
size-`k` combinations. -/
def freqMap (rows : List Row) (k : Nat) : List (List Int × Nat) :=
  rows.foldl
    (fun m d => (combos k (primaries d)).foldl (fun m c => bump m (sortAsc c)) m)
    []

/-- Total number of size-`k` position-combinations across all stored
draws whose canonical key is `key` — the count the analyzer aggregates. -/
def countOccs (rows : List Row) (k : Nat) (key : List Int) : Nat :=
  kcount key (allKeys k rows)

/-- The comparator of the final ranking
(`.sort((a, b) => b.frequency - a.frequency)`): descending frequency. -/
def byFreqDesc (a b : List Int × Nat) : Prop :=
  b.2 ≤ a.2

instance : DecidableRel byFreqDesc := fun a b => Nat.decLe b.2 a.2

instance : IsTotal (List Int × Nat) byFreqDesc :=
  ⟨fun a b => Nat.le_total b.2 a.2⟩

instance : IsTrans (List Int × Nat) byFreqDesc :=
  ⟨fun _ _ _ h1 h2 => Nat.le_trans h2 h1⟩

/-- `DBManager.getFrequentCombinations`: build the frequency table,
sort it by descending frequency with a stable sort (the engine's sort
is stable, matching insertion sort), and keep the first 20 entries.
Keys are kept as sorted integer lists; the code's comma-joined strings
are in bijection with them. -/
def getFrequentCombinations (rows : List Row) (k : Nat) :
    List (List Int × Nat) :=
  (List.insertionSort byFreqDesc (freqMap rows k)).take 20

/-- The `/combinaciones` route.  `kq` is the result of
`parseInt(req.query.k)`, `none` standing for NaN (missing or
non-numeric parameter).  The code computes `parseInt(req.query.k) || 1`,
so NaN and the falsy 0 are replaced by the default 1 before the range
check `k < 1 || k > 6`. -/
def combinaciones (rows : List Row) (kq : Option Int) :
    RouteResult (List (List Int × Nat)) :=
  let k : Int := match kq with
    | none => 1
    | some v => if v = 0 then 1 else v
  if k < 1 ∨ 6 < k then .badRequest
  else .ok (getFrequentCombinations rows k.toNat)

/-! ### Ingestion pipeline (`insertNewRecordsOnly`, `reloadAllData`)

The store is the `Concursos` table — absent (`none`) or a list of rows
in insertion order — together with SQLite's transaction state.  SQLite
rejects `BEGIN` while a transaction is active and `COMMIT`/`ROLLBACK`
while none is; `ROLLBACK` restores the state saved at `BEGIN`.  Errors
are surfaced like thrown exceptions: every operation returns the
resulting durable state plus an optional error. -/

/-- SQLite-level errors the embedded operations can raise. -/
inductive DBErr where
  /-- `BEGIN TRANSACTION` while a transaction is already active. -/
  | nestedTxn
  /-- `COMMIT`/`ROLLBACK` while no transaction is active. -/
  | noTxn
  /-- a statement referencing the missing `Concursos` table -/
  | noTable
  /-- the CSV stream failed: the source is malformed -/
  | badSource
deriving DecidableEq, Repr

/-- Database state: the `Concursos` table (`none` when it does not
exist) and, when a transaction is active, the durable state saved at
`BEGIN`. -/
structure DB where
  table : Option (List Row)
  snapshot : Option (Option (List Row))
deriving DecidableEq, Repr

/-- `BEGIN TRANSACTION`. -/
def beginTxn (db : DB) : DB × Option DBErr :=
  match db.snapshot with
  | some _ => (db, some .nestedTxn)
  | none => ({ db with snapshot := some db.table }, none)

/-- `COMMIT`. -/
def commitTxn (db : DB) : DB × Option DBErr :=
  match db.snapshot with
  | none => (db, some .noTxn)
  | some _ => ({ db with snapshot := none }, none)

/-- `ROLLBACK`. -/
def rollbackTxn (db : DB) : DB × Option DBErr :=
  match db.snapshot with
  | none => (db, some .noTxn)
  | some s => ({ table := s, snapshot := none }, none)

/-- `DROP TABLE IF EXISTS Concursos` — never fails. -/
def dropTable (db : DB) : DB :=
  { db with table := none }

/-- `DBManager.createTableIfNotExists`: a no-op when the table exists,
otherwise creates it empty. -/
def createTableIfNotExists (db : DB) : DB :=
  match db.table with
  | some _ => db
  | none => { db with table := some [] }

/-- Does the current table hold a row with this `CONCURSO`?  This is
the per-record existence check `SELECT * FROM Concursos WHERE CONCURSO = ?`. -/
def hasId (t : List Row) (i : Int) : Bool :=
  t.any fun row => decide (row.CONCURSO = i)

/-- The catch block of both ingestion methods: attempt `ROLLBACK`, then
rethrow the (wrapped) original error — unless the `ROLLBACK` itself
throws, in which case its error escapes the catch block first and masks
the original one. -/
def rollbackAndRethrow (db : DB) (e : DBErr) : DB × Option DBErr :=
  match rollbackTxn db with
  | (db1, some e2) => (db1, some e2)
  | (db1, none) => (db1, some e)

/-- The insert loop of `insertNewRecordsOnly`: for each parsed record
in order, look its `CONCURSO` up and insert only when absent.  With the
table missing, the first existence check fails; with it present the
loop cannot fail. -/
def runInserts (db : DB) : List Row → DB × Option DBErr
  | [] => (db, none)
  | r :: rs =>
    match db.table with
    | none => (db, some .noTable)
    | some t =>
      runInserts
        { db with table := some (if hasId t r.CONCURSO then t else t ++ [r]) }
        rs

/-- Pure description of what the insert loop does to an existing
table. -/
def insertFold (t : List Row) : List Row → List Row
  | [] => t
  | r :: rs => insertFold (if hasId t r.CONCURSO then t else t ++ [r]) rs

/-- `DBManager.insertNewRecordsOnly`.  The tabular source is `none`
when the CSV stream errors (malformed source) and otherwise the parsed
records; the whole source is collected in memory before the per-record
loop runs.  The body is `BEGIN; parse; loop; COMMIT` and any failure
goes through the catch block that rolls back and rethrows. -/
def insertNewRecordsOnly (src : Option (List Row)) (db : DB) :
    DB × Option DBErr :=
  match beginTxn db with
  | (db1, some e) => rollbackAndRethrow db1 e
  | (db1, none) =>
    match src with
    | none => rollbackAndRethrow db1 .badSource
    | some records =>
      match runInserts db1 records with
      | (db2, some e) => rollbackAndRethrow db2 e
      | (db2, none) =>
        match commitTxn db2 with
        | (db3, some e) => rollbackAndRethrow db3 e
        | (db3, none) => (db3, none)

/-- `DBManager.reloadAllData`: `BEGIN; PRAGMA foreign_keys = OFF;
DROP TABLE IF EXISTS; CREATE TABLE; insertNewRecordsOnly; PRAGMA
foreign_keys = ON; COMMIT`, with the same rollback-and-rethrow catch
block.  The pragmas have no effect on the embedded state. -/
def reloadAllData (src : Option (List Row)) (db : DB) :
    DB × Option DBErr :=
  match beginTxn db with
  | (db1, some e) => rollbackAndRethrow db1 e
  | (db1, none) =>
    let db2 := dropTable db1
    let db3 := createTableIfNotExists db2
    match insertNewRecordsOnly src db3 with
    | (db4, some e) => rollbackAndRethrow db4 e
    | (db4, none) =>
      match commitTxn db4 with
      | (db5, some e) => rollbackAndRethrow db5 e
      | (db5, none) => (db5, none)

end Lotto

namespace Lotto

/-- A sample draw used to instantiate the specification's worked
example: primaries `{7,14,21,28,35,42}`. -/
def sampleDraw : Row :=
  ⟨1, 40, 7, 14, 21, 28, 35, 42, 3, 0, "d"⟩

/-- C1 membership divergence witness data: the claim's own example. -/
def oneDrawStore : List Row := [sampleDraw]

/-- The specification's single-draw store `{R1..R6} = {1,2,3,4,5,6}`. -/
def seqDraw : Row :=
  ⟨1, 40, 1, 2, 3, 4, 5, 6, 7, 0, "d"⟩

/-- A draw whose primary columns repeat the value 5: the table places
no distinctness constraint on `R1..R6`. -/
def dupDraw : Row :=
  ⟨2, 40, 5, 5, 1, 2, 3, 4, 9, 0, "d"⟩

end Lotto

namespace Lotto

/-- C1: the membership lookup does not implement OR-across-columns /
AND-across-candidates.  The generated query has `6 * n` placeholders but
only the `n` candidates are bound, so the trailing placeholders are
NULL; every AND-group beyond the first evaluates to NULL and no row can
satisfy the predicate once two or more candidates are given.  On the
claim's example store the code counts 0 where the specification
requires 1 (the empty store correctly gives 0). -/
theorem findCombination_unbound_params_bug :
    findCombination oneDrawStore [7, 14, 21] = some 0 ∧
    occurrenceCountSpec oneDrawStore [7, 14, 21] = 1 ∧
    findCombination ([] : List Row) [7, 14, 21] = some 0 := by
  refine ⟨?_, ?_, ?_⟩ <;> decide

/-- C8 counterexample: an empty or null candidate list is not answered
with the 400 InvalidArgument rejection the claim requires; both cases
fall through to the catch-all 500 handler. -/
theorem buscarCombinacion_no_validation :
    buscarCombinacion ([] : List Row) (some []) ≠ RouteResult.badRequest ∧
    buscarCombinacion ([] : List Row) none ≠ RouteResult.badRequest := by
  refine ⟨?_, ?_⟩ <;> decide

/-- C8 amended: the route performs no explicit validation of the
candidate list.  A null list makes `numeros.map` throw and an empty
list produces a malformed empty-predicate query; either way the request
fails with the generic 500 server error — a downstream failure, not an
InvalidArgument rejection — and in particular never succeeds with an
always-true predicate counting every draw. -/
theorem buscarCombinacion_empty_null_server_error (rows : List Row) :
    buscarCombinacion rows (some []) = RouteResult.serverError ∧
    buscarCombinacion rows none = RouteResult.serverError := by
  constructor <;> rfl

/-! ### Frequency-table lemmas -/

theorem bump_alook_eq (m : List (List Int × Nat)) (key : List Int) :
    alook (bump m key) key = some ((alook m key).getD 0 + 1) := by
  induction m with
  | nil => simp [bump, alook]
  | cons e m ih =>
    by_cases h : e.1 = key
    · simp [bump, alook, h]
    · simp [bump, alook, h, ih]

theorem bump_alook_ne (m : List (List Int × Nat)) (key key' : List Int)
    (h : key' ≠ key) : alook (bump m key) key' = alook m key' := by
  induction m with
  | nil => simp [bump, alook, Ne.symm h]
  | cons e m ih =>
    by_cases he : e.1 = key
    · simp [bump, alook, he, Ne.symm h]
    · simp only [bump, if_neg he]
      by_cases he' : e.1 = key'
      · simp [alook, he']
      · simp [alook, he', ih]

theorem kcount_append (key : List Int) (l l' : List (List Int)) :
    kcount key (l ++ l') = kcount key l + kcount key l' := by
  induction l with
  | nil => simp [kcount]
  | cons a l ih => simp [kcount, ih]; omega

theorem alook_foldl_bump_some (ks : List (List Int)) :
    ∀ m key c, alook m key = some c →
      alook (ks.foldl bump m) key = some (c + kcount key ks) := by
  induction ks with
  | nil =>
    intro m key c h
    simpa [kcount] using h
  | cons k0 ks ih =>
    intro m key c h
    simp only [List.foldl_cons]
    by_cases hk : k0 = key
    · subst hk
      have h2 : alook (bump m k0) k0 = some (c + 1) := by
        rw [bump_alook_eq, h]
        rfl
      rw [ih _ _ _ h2]
      simp [kcount]
      omega
    · have h2 : alook (bump m k0) key = some c := by
        rw [bump_alook_ne _ _ _ fun hh => hk hh.symm]
        exact h
      rw [ih _ _ _ h2]
      simp [kcount, hk]

theorem alook_foldl_bump_none (ks : List (List Int)) :
    ∀ m key, alook m key = none →
      alook (ks.foldl bump m) key =
        if kcount key ks = 0 then none else some (kcount key ks) := by
  induction ks with
  | nil =>
    intro m key h
    simpa [kcount] using h
  | cons k0 ks ih =>
    intro m key h
    simp only [List.foldl_cons]
    by_cases hk : k0 = key
    · subst hk
      have h2 : alook (bump m k0) k0 = some 1 := by
        rw [bump_alook_eq, h]
        rfl
      rw [alook_foldl_bump_some ks _ _ _ h2]
      simp [kcount]
    · have h2 : alook (bump m k0) key = none := by
        rw [bump_alook_ne _ _ _ fun hh => hk hh.symm]
        exact h
      rw [ih _ _ h2]
      simp [kcount, hk]

theorem mem_alook {m : List (List Int × Nat)}
    (hnd : (m.map Prod.fst).Nodup) :
    ∀ p ∈ m, alook m p.1 = some p.2 := by
  induction m with
  | nil => simp
  | cons e m ih =>
    intro p hp
    simp only [List.map_cons, List.nodup_cons] at hnd
    rcases List.mem_cons.mp hp with rfl | hp
    · simp [alook]
    · have hne : e.1 ≠ p.1 := by
        intro hh
        exact hnd.1 (hh ▸ List.mem_map_of_mem Prod.fst hp)
      simp [alook, hne, ih hnd.2 p hp]

theorem bump_keys_sub (m : List (List Int × Nat)) (key : List Int) :
    ∀ k', k' ∈ (bump m key).map Prod.fst →
      k' = key ∨ k' ∈ m.map Prod.fst := by
  induction m with
  | nil => simp [bump]
  | cons e m ih =>
    intro k' hk'
    by_cases he : e.1 = key
    · simp only [bump, if_pos he, List.map_cons, List.mem_cons] at hk' ⊢
      tauto
    · simp only [bump, if_neg he, List.map_cons, List.mem_cons] at hk' ⊢
      rcases hk' with h | h
      · tauto
      · rcases ih k' h with h | h <;> tauto

theorem bump_keysNodup (m : List (List Int × Nat)) (key : List Int)
    (h : (m.map Prod.fst).Nodup) : ((bump m key).map Prod.fst).Nodup := by
  induction m with
  | nil => simp [bump]
  | cons e m ih =>
    simp only [List.map_cons, List.nodup_cons] at h
    by_cases he : e.1 = key
    · simp only [bump, if_pos he, List.map_cons, List.nodup_cons]
      exact ⟨h.1, h.2⟩
    · simp only [bump, if_neg he, List.map_cons, List.nodup_cons]
      refine ⟨fun hmem => ?_, ih h.2⟩
      rcases bump_keys_sub m key e.1 hmem with hh | hh
      · exact he hh
      · exact h.1 hh

theorem foldl_bump_keysNodup (ks : List (List Int)) :
    ∀ m, (m.map Prod.fst).Nodup →
      ((ks.foldl bump m).map Prod.fst).Nodup := by
  induction ks with
  | nil => intro m h; simpa using h
  | cons k0 ks ih =>
    intro m h
    simpa only [List.foldl_cons] using ih (bump m k0) (bump_keysNodup m k0 h)

theorem freqMap_eq_foldl (k : Nat) (rows : List Row) :
    freqMap rows k = (allKeys k rows).foldl bump [] := by
  suffices h : ∀ (rs : List Row) (m : List (List Int × Nat)),
      rs.foldl
        (fun m d =>
          (combos k (primaries d)).foldl (fun m c => bump m (sortAsc c)) m)
        m = (allKeys k rs).foldl bump m by
    exact h rows []
  intro rs
  induction rs with
  | nil => intro m; rfl
  | cons d ds ih =>
    intro m
    simp only [List.foldl_cons, allKeys, List.foldl_append, ih]
    congr 1
    simp [keysOf, List.foldl_map]

theorem mem_freqMap (rows : List Row) (k : Nat) :
    ∀ p ∈ freqMap rows k,
      p.2 = countOccs rows k p.1 ∧ countOccs rows k p.1 ≠ 0 := by
  intro p hp
  have hnd := foldl_bump_keysNodup (allKeys k rows) [] (by simp)
  rw [freqMap_eq_foldl] at hp
  have hl := mem_alook hnd p hp
  rw [alook_foldl_bump_none (allKeys k rows) [] p.1 rfl] at hl
  by_cases hz : kcount p.1 (allKeys k rows) = 0
  · rw [if_pos hz] at hl
    exact absurd hl (by simp)
  · rw [if_neg hz] at hl
    exact ⟨(Option.some.inj hl).symm, hz⟩

theorem exists_of_kcount_map {f : List Int → List Int}
    {l : List (List Int)} {key : List Int}
    (h : kcount key (l.map f) ≠ 0) : ∃ c ∈ l, f c = key := by
  induction l with
  | nil => simp [kcount] at h
  | cons c l ih =>
    simp only [List.map_cons, kcount] at h
    by_cases hc : f c = key
    · exact ⟨c, List.mem_cons_self c l, hc⟩
    · rw [if_neg hc] at h
      obtain ⟨c', hc', hck⟩ := ih (by omega)
      exact ⟨c', List.mem_cons_of_mem _ hc', hck⟩

theorem exists_draw_of_countOccs {rows : List Row} {k : Nat}
    {key : List Int} (h : countOccs rows k key ≠ 0) :
    ∃ d ∈ rows, ∃ c ∈ combos k (primaries d), sortAsc c = key := by
  induction rows with
  | nil => simp [countOccs, allKeys, kcount] at h
  | cons d ds ih =>
    unfold countOccs allKeys at h
    rw [kcount_append] at h
    by_cases h1 : kcount key (keysOf k d) = 0
    · obtain ⟨d', hd', rest⟩ := ih (by unfold countOccs; omega)
      exact ⟨d', List.mem_cons_of_mem _ hd', rest⟩
    · obtain ⟨c, hc, hck⟩ := exists_of_kcount_map (f := sortAsc) h1
      exact ⟨d, List.mem_cons_self d ds, c, hc, hck⟩

theorem combos_length :
    ∀ (l : List Int) (k : Nat) (c : List Int), c ∈ combos k l →
      c.length = k := by
  intro l
  induction l with
  | nil =>
    intro k c hc
    cases k with
    | zero => simp [combos] at hc; simp [hc]
    | succ k => simp [combos] at hc
  | cons x xs ih =>
    intro k c hc
    cases k with
    | zero => simp [combos] at hc; simp [hc]
    | succ k =>
      simp only [combos, List.mem_append, List.mem_map] at hc
      rcases hc with ⟨c', hc', rfl⟩ | hc
      · simp [ih k c' hc']
      · exact ih (k + 1) c hc

theorem sortAsc_length (c : List Int) : (sortAsc c).length = c.length :=
  (List.perm_insertionSort _ c).length_eq

theorem sortAsc_sorted (c : List Int) :
    List.Sorted (· ≤ ·) (sortAsc c) :=
  List.sorted_insertionSort _ c

/-- Shared characterization of `getFrequentCombinations`: at most 20
entries, ranked by non-increasing frequency, one entry per canonical
key, and each entry is the ascending sort of a size-`k`
position-combination of some stored draw with its aggregated count. -/
theorem getFrequent_spec (rows : List Row) (k : Nat) :
    (getFrequentCombinations rows k).length ≤ 20 ∧
    List.Sorted byFreqDesc (getFrequentCombinations rows k) ∧
    ((getFrequentCombinations rows k).map Prod.fst).Nodup ∧
    (∀ p ∈ getFrequentCombinations rows k,
      p.1.length = k ∧ List.Sorted (· ≤ ·) p.1 ∧
      p.2 = countOccs rows k p.1 ∧
      ∃ d ∈ rows, ∃ c ∈ combos k (primaries d), sortAsc c = p.1) := by
  have hsub : getFrequentCombinations rows k ⊆ freqMap rows k := fun p hp =>
    (List.perm_insertionSort byFreqDesc _).subset
      ((List.take_sublist _ _).subset hp)
  refine ⟨?_, ?_, ?_, ?_⟩
  · rw [getFrequentCombinations, List.length_take]
    exact min_le_left _ _
  · exact List.Pairwise.sublist (List.take_sublist _ _)
      (List.sorted_insertionSort byFreqDesc _)
  · have hnd := foldl_bump_keysNodup (allKeys k rows) [] (by simp)
    rw [← freqMap_eq_foldl] at hnd
    have hperm :
        List.Perm
          ((List.insertionSort byFreqDesc (freqMap rows k)).map Prod.fst)
          ((freqMap rows k).map Prod.fst) :=
      (List.perm_insertionSort byFreqDesc _).map Prod.fst
    have hnd2 := (hperm.nodup_iff).mpr hnd
    rw [getFrequentCombinations, List.map_take]
    exact hnd2.sublist (List.take_sublist _ _)
  · intro p hp
    have hm := hsub hp
    obtain ⟨hcnt, hne⟩ := mem_freqMap rows k p hm
    obtain ⟨d, hd, c, hc, hck⟩ := exists_draw_of_countOccs hne
    refine ⟨?_, ?_, hcnt, d, hd, c, hc, hck⟩
    · rw [← hck, sortAsc_length]
      exact combos_length _ k c hc
    · rw [← hck]
      exact sortAsc_sorted c

/-- C4 counterexample: the entries' numbers need not be distinct.  The
table puts no distinctness constraint on a draw's six columns, and
combinations are taken by position, so a draw repeating the value 5
produces the entry `([5,5], 1)` whose combination has a single distinct
number rather than two. -/
theorem frequentCombinations_repeated_value :
    (([5, 5], 1) ∈ getFrequentCombinations [dupDraw] 2) ∧
    ¬ List.Nodup [(5 : Int), 5] := by
  exact ⟨by decide, by decide⟩

/-- C4 amended: for every k in [1,6] and every store,
`frequentCombinations(k)` returns at most 20 entries sorted by
non-increasing frequency; each entry's combination is the
ascending-sorted canonical key of a size-k position-combination of some
stored draw's six primary numbers (exactly k numbers, distinct whenever
the draw's columns are distinct, though possibly repeated otherwise);
keys are pairwise distinct, so same-numbers combinations in different
draw-column order collapse into the one counter, which aggregates the
occurrences across all draws. -/
theorem frequentCombinations_shape (rows : List Row) (k : Nat)
    (h1 : 1 ≤ k) (h6 : k ≤ 6) :
    (getFrequentCombinations rows k).length ≤ 20 ∧
    List.Sorted byFreqDesc (getFrequentCombinations rows k) ∧
    ((getFrequentCombinations rows k).map Prod.fst).Nodup ∧
    (∀ p ∈ getFrequentCombinations rows k,
      p.1.length = k ∧ List.Sorted (· ≤ ·) p.1 ∧
      p.2 = countOccs rows k p.1 ∧
      ∃ d ∈ rows, ∃ c ∈ combos k (primaries d), sortAsc c = p.1) :=
  getFrequent_spec rows k

/-- Witness for the amended C4 theorem at the concrete store
`[seqDraw]` with k = 2, instantiated at the returned entry
`([1,2], 1)`. -/
theorem frequentCombinations_shape_spot :
    (getFrequentCombinations [seqDraw] 2).length ≤ 20 ∧
    List.Sorted byFreqDesc (getFrequentCombinations [seqDraw] 2) ∧
    ((getFrequentCombinations [seqDraw] 2).map Prod.fst).Nodup ∧
    (([1, 2] : List Int).length = 2 ∧
      List.Sorted (· ≤ ·) ([1, 2] : List Int) ∧
      (1 : Nat) = countOccs [seqDraw] 2 [1, 2] ∧
      ∃ d ∈ [seqDraw], ∃ c ∈ combos 2 (primaries d),
        sortAsc c = ([1, 2] : List Int)) :=
  ⟨(frequentCombinations_shape [seqDraw] 2 (by decide) (by decide)).1,
   (frequentCombinations_shape [seqDraw] 2 (by decide) (by decide)).2.1,
   (frequentCombinations_shape [seqDraw] 2 (by decide) (by decide)).2.2.1,
   (frequentCombinations_shape [seqDraw] 2 (by decide) (by decide)).2.2.2
     ([1, 2], 1) (by decide)⟩

/-- C9: on the store holding the single draw `{1,2,3,4,5,6}`, the
pair analysis returns exactly the C(6,2) = 15 distinct pairs (all
within the 20-entry cap), every one with frequency 1, and `[1,2]` is
among them. -/
theorem frequentCombinations_single_draw_pairs :
    (getFrequentCombinations [seqDraw] 2).length = 15 ∧
    ((getFrequentCombinations [seqDraw] 2).map Prod.fst).Nodup ∧
    ((getFrequentCombinations [seqDraw] 2).all fun p => p.2 == 1) = true ∧
    (([1, 2], 1) ∈ getFrequentCombinations [seqDraw] 2) := by
  refine ⟨by decide, by decide, by decide, by decide⟩

/-- C7 counterexample: `frequentCombinations(0)` does not fail with
InvalidArgument.  The route computes `parseInt(req.query.k) || 1`, so
the falsy 0 is replaced by the default 1 before the range check and the
request succeeds. -/
theorem combinaciones_zero_not_rejected :
    combinaciones ([] : List Row) (some 0) ≠ RouteResult.badRequest := by
  decide

/-- C7 amended: every nonzero k outside [1,6] — in particular k = 7 —
is rejected with the 400 InvalidArgument response before anything is
computed, and k within [1,6] is never rejected; but k = 0 is silently
coerced to the default 1 and succeeds instead of failing. -/
theorem combinaciones_range_check (rows : List Row) (k : Int) :
    (k ≠ 0 → k < 1 ∨ 6 < k →
      combinaciones rows (some k) = RouteResult.badRequest) ∧
    combinaciones rows (some 0) =
      RouteResult.ok (getFrequentCombinations rows 1) ∧
    (1 ≤ k → k ≤ 6 →
      combinaciones rows (some k) =
        RouteResult.ok (getFrequentCombinations rows k.toNat)) := by
  refine ⟨fun hk hrange => ?_, rfl, fun h1 h6 => ?_⟩
  · simp only [combinaciones, if_neg hk]
    exact if_pos hrange
  · simp only [combinaciones, if_neg (by omega : ¬k = 0)]
    rw [if_neg (by omega : ¬(k < 1 ∨ 6 < k))]

/-- Witness for the amended C7 theorem: k = 7 is rejected, k = 0 and
k = 2 succeed. -/
theorem combinaciones_range_check_spot :
    combinaciones ([] : List Row) (some 7) = RouteResult.badRequest ∧
    combinaciones ([] : List Row) (some 0) =
      RouteResult.ok (getFrequentCombinations [] 1) ∧
    combinaciones ([] : List Row) (some 2) =
      RouteResult.ok (getFrequentCombinations [] 2) :=
  ⟨(combinaciones_range_check [] 7).1 (by decide) (Or.inr (by decide)),
   (combinaciones_range_check [] 0).2.1,
   (combinaciones_range_check [] 2).2.2 (by decide) (by decide)⟩

/-- C10: a missing or non-numeric k (NaN after `parseInt`) and the
falsy k = 0 are all silently coerced to the default k = 1, so the
request succeeds and returns single-number frequencies (every returned
combination has exactly one number) instead of being rejected. -/
theorem combinaciones_falsy_default (rows : List Row) :
    combinaciones rows none =
      RouteResult.ok (getFrequentCombinations rows 1) ∧
    combinaciones rows (some 0) =
      RouteResult.ok (getFrequentCombinations rows 1) ∧
    (∀ p ∈ getFrequentCombinations rows 1, p.1.length = 1) :=
  ⟨rfl, rfl, fun p hp => ((getFrequent_spec rows 1).2.2.2 p hp).1⟩

/-- Witness for the C10 theorem at the concrete one-draw store. -/
theorem combinaciones_falsy_default_spot :
    combinaciones oneDrawStore none =
      RouteResult.ok (getFrequentCombinations oneDrawStore 1) ∧
    (([7], 1) ∈ getFrequentCombinations oneDrawStore 1) ∧
    ([(7 : Int)] : List Int).length = 1 :=
  ⟨(combinaciones_falsy_default oneDrawStore).1, by decide,
   (combinaciones_falsy_default oneDrawStore).2.2 ([7], 1) (by decide)⟩

/-! ### Ingestion lemmas -/

theorem hasId_append (t l : List Row) (i : Int) :
    hasId (t ++ l) i = (hasId t i || hasId l i) := by
  simp [hasId, List.any_append]

theorem runInserts_ok (rs : List Row) :
    ∀ (t : List Row) (snap : Option (Option (List Row))),
      runInserts ⟨some t, snap⟩ rs = (⟨some (insertFold t rs), snap⟩, none) := by
  induction rs with
  | nil => intro t snap; rfl
  | cons r rs ih =>
    intro t snap
    simp only [runInserts, insertFold]
    exact ih _ snap

theorem insertNewRecordsOnly_ok (t rs : List Row) :
    insertNewRecordsOnly (some rs) ⟨some t, none⟩ =
      (⟨some (insertFold t rs), none⟩, none) := by
  simp only [insertNewRecordsOnly, beginTxn, runInserts_ok, commitTxn]

theorem insertFold_append (rs : List Row) :
    ∀ t : List Row, ∃ ex : List Row,
      insertFold t rs = t ++ ex ∧
      ∀ row ∈ ex, hasId t row.CONCURSO = false ∧ row ∈ rs := by
  induction rs with
  | nil => intro t; exact ⟨[], by simp [insertFold]⟩
  | cons r rs ih =>
    intro t
    by_cases h : hasId t r.CONCURSO
    · obtain ⟨ex, he, hprop⟩ := ih t
      refine ⟨ex, by simpa [insertFold, h] using he, fun row hrow =>
        ⟨(hprop row hrow).1, List.mem_cons_of_mem _ (hprop row hrow).2⟩⟩
    · obtain ⟨ex, he, hprop⟩ := ih (t ++ [r])
      refine ⟨r :: ex, ?_, ?_⟩
      · simp only [insertFold, if_neg h, he, List.append_assoc,
          List.singleton_append]
      · intro row hrow
        rcases List.mem_cons.mp hrow with rfl | hrow
        · exact ⟨by simpa using h, List.mem_cons_self _ _⟩
        · have hp := hprop row hrow
          have hfalse : hasId t row.CONCURSO = false := by
            have := hp.1
            rw [hasId_append] at this
            exact (Bool.or_eq_false_iff.mp this).1
          exact ⟨hfalse, List.mem_cons_of_mem _ hp.2⟩

theorem mem_insertFold (rs t : List Row) (row : Row) (h : row ∈ t) :
    row ∈ insertFold t rs := by
  obtain ⟨ex, he, _⟩ := insertFold_append rs t
  rw [he]
  exact List.mem_append_left _ h

theorem insertFold_mem_of_new (rs : List Row) :
    ∀ (t : List Row), ∀ r ∈ rs, hasId t r.CONCURSO = false →
      ∃ row ∈ insertFold t rs, row.CONCURSO = r.CONCURSO ∧ row ∈ rs := by
  induction rs with
  | nil => intro t r hr; simp at hr
  | cons r0 rs ih =>
    intro t r hr hnew
    rcases List.mem_cons.mp hr with rfl | hr
    · rw [show insertFold t (r :: rs) = insertFold (t ++ [r]) rs by
        simp [insertFold, hnew]]
      exact ⟨r, mem_insertFold rs (t ++ [r]) r (by simp), rfl,
        List.mem_cons_self _ _⟩
    · by_cases hsame : r0.CONCURSO = r.CONCURSO
      · have h0 : hasId t r0.CONCURSO = false := by rw [hsame]; exact hnew
        rw [show insertFold t (r0 :: rs) = insertFold (t ++ [r0]) rs by
          simp [insertFold, h0]]
        exact ⟨r0, mem_insertFold rs (t ++ [r0]) r0 (by simp), hsame,
          List.mem_cons_self _ _⟩
      · have hstep : hasId (if hasId t r0.CONCURSO then t else t ++ [r0])
            r.CONCURSO = false := by
          by_cases h0 : hasId t r0.CONCURSO
          · rw [if_pos h0]; exact hnew
          · rw [if_neg h0, hasId_append, hnew]
            simp [hasId, hsame]
        obtain ⟨row, hrow, hid, hmem⟩ := ih _ r hr hstep
        exact ⟨row, by simpa [insertFold] using hrow, hid,
          List.mem_cons_of_mem _ hmem⟩

theorem insertFold_filter (rs t : List Row) (i : Int)
    (hi : hasId t i = true) :
    (insertFold t rs).filter (fun row => decide (row.CONCURSO = i)) =
      t.filter (fun row => decide (row.CONCURSO = i)) := by
  obtain ⟨ex, he, hprop⟩ := insertFold_append rs t
  rw [he, List.filter_append]
  have hex : ex.filter (fun row => decide (row.CONCURSO = i)) = [] := by
    rw [List.filter_eq_nil_iff]
    intro row hrow
    simp only [decide_eq_true_eq]
    intro hii
    have := (hprop row hrow).1
    rw [hii, hi] at this
    cases this
  rw [hex, List.append_nil]

theorem hasId_insertFold (rs t : List Row) (i : Int)
    (h : hasId t i = true) : hasId (insertFold t rs) i = true := by
  obtain ⟨ex, he, _⟩ := insertFold_append rs t
  rw [he, hasId_append, h, Bool.true_or]

theorem insertFold_all_present (rs : List Row) :
    ∀ t, ∀ r ∈ rs, hasId (insertFold t rs) r.CONCURSO = true := by
  induction rs with
  | nil => intro t r hr; simp at hr
  | cons r0 rs ih =>
    intro t r hr
    rcases List.mem_cons.mp hr with rfl | hr
    · simp only [insertFold]
      by_cases h0 : hasId t r.CONCURSO
      · rw [if_pos h0]
        exact hasId_insertFold rs t _ h0
      · rw [if_neg h0]
        refine hasId_insertFold rs _ _ ?_
        rw [hasId_append]
        simp [hasId]
    · simpa only [insertFold] using ih _ r hr

theorem insertFold_of_present (rs : List Row) :
    ∀ t, (∀ r ∈ rs, hasId t r.CONCURSO = true) → insertFold t rs = t := by
  induction rs with
  | nil => intro t _; rfl
  | cons r0 rs ih =>
    intro t h
    rw [show insertFold t (r0 :: rs) = insertFold t rs by
      simp [insertFold, h r0 (List.mem_cons_self _ _)]]
    exact ih t fun r hr => h r (List.mem_cons_of_mem _ hr)

theorem insertFold_idem (t rs : List Row) :
    insertFold (insertFold t rs) rs = insertFold t rs :=
  insertFold_of_present rs _ fun r hr => insertFold_all_present rs t r hr

/-- C3: on a store whose table holds rows `t`, inserting the parsed
records `rs` succeeds with no error — a colliding `CONCURSO` is
silently skipped, not raised and not overwritten; afterwards every
record whose `CONCURSO` was not in the store is present as a literal
source record with that id (exactly the source's field values); and the
rows of every pre-existing `CONCURSO` are exactly unchanged, every old
row surviving. -/
theorem insertNewRecordsOnly_reconciles (t rs : List Row) :
    insertNewRecordsOnly (some rs) ⟨some t, none⟩ =
      (⟨some (insertFold t rs), none⟩, none) ∧
    (∀ r ∈ rs, hasId t r.CONCURSO = false →
      ∃ row ∈ insertFold t rs, row.CONCURSO = r.CONCURSO ∧ row ∈ rs) ∧
    (∀ i : Int, hasId t i = true →
      (insertFold t rs).filter (fun row => decide (row.CONCURSO = i)) =
        t.filter (fun row => decide (row.CONCURSO = i))) ∧
    (∀ row ∈ t, row ∈ insertFold t rs) :=
  ⟨insertNewRecordsOnly_ok t rs,
   fun r hr hnew => insertFold_mem_of_new rs t r hr hnew,
   fun i hi => insertFold_filter rs t i hi,
   fun row hrow => mem_insertFold rs t row hrow⟩

/-- Witness for the C3 theorem: store `[seqDraw]` (id 1), source
`[dupDraw]` (fresh id 2). -/
theorem insertNewRecordsOnly_reconciles_spot :
    insertNewRecordsOnly (some [dupDraw]) ⟨some [seqDraw], none⟩ =
      (⟨some (insertFold [seqDraw] [dupDraw]), none⟩, none) ∧
    (∃ row ∈ insertFold [seqDraw] [dupDraw],
      row.CONCURSO = dupDraw.CONCURSO ∧ row ∈ [dupDraw]) ∧
    (insertFold [seqDraw] [dupDraw]).filter
        (fun row => decide (row.CONCURSO = 1)) =
      [seqDraw].filter (fun row => decide (row.CONCURSO = 1)) ∧
    seqDraw ∈ insertFold [seqDraw] [dupDraw] :=
  ⟨(insertNewRecordsOnly_reconciles [seqDraw] [dupDraw]).1,
   (insertNewRecordsOnly_reconciles [seqDraw] [dupDraw]).2.1 dupDraw
     (by decide) (by decide),
   (insertNewRecordsOnly_reconciles [seqDraw] [dupDraw]).2.2.1 1 (by decide),
   (insertNewRecordsOnly_reconciles [seqDraw] [dupDraw]).2.2.2 seqDraw
     (by decide)⟩

/-- C5: running `insertNewRecordsOnly` twice with the same parsed
source is idempotent — the first run succeeds, and the second run
succeeds while inserting nothing, leaving the state after the first run
identical. -/
theorem insertNewRecordsOnly_idem (t rs : List Row) :
    (insertNewRecordsOnly (some rs) ⟨some t, none⟩).2 = none ∧
    insertNewRecordsOnly (some rs)
        (insertNewRecordsOnly (some rs) ⟨some t, none⟩).1 =
      ((insertNewRecordsOnly (some rs) ⟨some t, none⟩).1, none) := by
  rw [insertNewRecordsOnly_ok]
  refine ⟨rfl, ?_⟩
  rw [insertNewRecordsOnly_ok, insertFold_idem]

/-- C6: a malformed source — the CSV stream errors, so no records are
obtained — makes `insertNewRecordsOnly` fail with an error while the
store (table contents, hence row count) is left exactly as it was: the
transaction opened before the parse is rolled back and no partial batch
is committed.  The whole source is read into memory before the insert
loop, so nothing was written in the first place. -/
theorem insertNewRecordsOnly_malformed (db : DB) (h : db.snapshot = none) :
    insertNewRecordsOnly none db = (db, some DBErr.badSource) := by
  obtain ⟨tb, snap⟩ := db
  cases h
  rfl

/-- Witness for the C6 theorem on a concrete one-row store. -/
theorem insertNewRecordsOnly_malformed_spot :
    insertNewRecordsOnly none ⟨some [seqDraw], none⟩ =
      (⟨some [seqDraw], none⟩, some DBErr.badSource) :=
  insertNewRecordsOnly_malformed ⟨some [seqDraw], none⟩ rfl

/-- C2: `reloadAllData` can never succeed.  Its transaction is open
when it calls `insertNewRecordsOnly`, whose own `BEGIN TRANSACTION` is
rejected as nested; the inner catch's `ROLLBACK` then aborts the
*outer* transaction — undoing the drop and recreate — and rethrows, and
the outer catch's `ROLLBACK` fails (no transaction is active any more),
masking the original error.  For every source and every store outside a
transaction, the run returns the no-active-transaction error and leaves
the store exactly unchanged, instead of replacing the table contents
with the source rows. -/
theorem reloadAllData_always_fails (src : Option (List Row)) (db : DB)
    (h : db.snapshot = none) :
    reloadAllData src db = (db, some DBErr.noTxn) := by
  obtain ⟨tb, snap⟩ := db
  cases h
  rfl

/-- Witness for the C2 theorem: a well-formed one-record source against
an empty table still fails and leaves the table empty, not with the one
source row. -/
theorem reloadAllData_always_fails_spot :
    reloadAllData (some [sampleDraw]) ⟨some [], none⟩ =
      (⟨some [], none⟩, some DBErr.noTxn) :=
  reloadAllData_always_fails (some [sampleDraw]) ⟨some [], none⟩ rfl

end Lotto
